import Mathlib

/-!
Verification of the AWS key detector plugin
(`detect_secrets/plugins/aws.py`).

The Python source is shallowly embedded: pure fragments become Lean
functions, the single network call per candidate is abstracted by an
oracle mapping each candidate secret to the HTTP response, and the
mutation of the caller-owned `potential_secret` record is made explicit
by returning the updated record from `verify`.
-/

namespace AwsDetector

/-- Modelled from the spec: the tri-state verification result
(`detect_secrets.core.constants.VerifiedResult`, imported by the plugin
from the surrounding framework, which is outside the packaged source). -/
inductive VerifiedResult where
  | VERIFIED_FALSE
  | VERIFIED_TRUE
  | UNVERIFIED
  deriving DecidableEq, Repr

/-- The part of the HTTP response the embedding models: the status code
that the code consults, plus an opaque remainder so that "only the status
code is consulted" is expressible. -/
structure Response where
  status_code : Nat
  remainder : String
  deriving DecidableEq, Repr

/-- Modelled from the spec: the caller-owned potential-secret record of
the framework; it carries identification fields plus the `other_factors`
mapping, the only part `verify` ever writes. -/
structure PotentialSecret where
  secret_type : String
  filename : String
  lineno : Nat
  other_factors : List (String × String)
  deriving DecidableEq, Repr

/-- The character class `[0-9A-Z]` of the access-key-ID pattern. -/
def keyChar (c : Char) : Bool :=
  c.isDigit || c.isUpper

/-- Consume exactly `n` characters satisfying `p`, returning the rest. -/
def matchReps (p : Char → Bool) : Nat → List Char → Option (List Char)
  | 0, cs => some cs
  | _ + 1, [] => none
  | n + 1, c :: cs => if p c then matchReps p n cs else none

/-- `denylist[0].match(token)` from the source: Python `re.match` anchors
only at the start of the string, so this accepts any token that begins
with `AKIA` followed by 16 characters from `[0-9A-Z]`. -/
def akiaMatchStart (s : String) : Bool :=
  match s.data with
  | 'A' :: 'K' :: 'I' :: 'A' :: rest => (matchReps keyChar 16 rest).isSome
  | _ => false

/-- Exact (full) match of the access-key-ID pattern `AKIA[0-9A-Z]{16}`:
the whole string is consumed by the pattern. -/
def akiaFullMatch (s : String) : Bool :=
  match s.data with
  | 'A' :: 'K' :: 'I' :: 'A' :: rest => decide (matchReps keyChar 16 rest = some [])
  | _ => false

/-- The character class of the 40-character secret value:
`string.ascii_letters + string.digits + '+/='`. -/
def secretAlphabet (c : Char) : Bool :=
  c.isAlpha || c.isDigit || c == '+' || c == '/' || c == '='

/-- The quoted alternative of the secret regex after the opening quote
`q`: exactly 40 characters of the class, the backreferenced closing
quote, then end of line. -/
def tryQuoted (q : Char) (r2 : List Char) : Option (List Char) :=
  if (r2.take 40).length = 40 ∧ (r2.take 40).all secretAlphabet = true ∧ r2.drop 40 = [q] then
    some (r2.take 40)
  else none

/-- The bare alternative of the secret regex (empty group 1): exactly 40
characters of the class immediately followed by end of line. -/
def tryBare (r : List Char) : Option (List Char) :=
  if r.length = 40 ∧ r.all secretAlphabet = true then some r else none

/-- One attempt of the secret regex
`= *(['"]?)([0-9a-zA-Z+/=]{40})(\1)$` at a position that must carry the
literal `=`.  `' *'` is consumed greedily; backtracking over the spaces
can never succeed because neither a quote nor a class character is a
space, so maximal munch is faithful.  A leading quote forces the quoted
alternative because quotes are not in the class. -/
def matchEq : List Char → Option (List Char)
  | '=' :: rest =>
    match rest.dropWhile (· == ' ') with
    | c :: r2 => if c = '\'' ∨ c = '"' then tryQuoted c r2 else tryBare (c :: r2)
    | [] => none
  | _ => none

/-- All matches of the secret regex in one line (Python `findall`),
leftmost first.  Every match of this pattern is anchored at the end of
the line by `$`, so at most one match exists and scanning resumes at the
line end after it. -/
def findallSecrets : List Char → List (List Char)
  | [] => []
  | c :: rest =>
    match matchEq (c :: rest) with
    | some v => [v]
    | none => findallSecrets rest

/-- The line-boundary characters of Python `str.splitlines`: `\n`, `\r`,
`\x0b` (VT), `\x0c` (FF), `\x1c` (FS), `\x1d` (GS), `\x1e` (RS), `\x85`
(NEL), U+2028 (LS) and U+2029 (PS).  The pair `\r\n` is one boundary
and is handled separately by the splitter. -/
def isLineBoundary (c : Char) : Bool :=
  c == '\n' || c == '\r' || c == '\u000B' || c == '\u000C' || c == '\u001C' ||
    c == '\u001D' || c == '\u001E' || c == '\u0085' || c == '\u2028' || c == '\u2029'

/-- Worker for `pySplitlines`: split at every `str.splitlines` boundary,
with `\r\n` counting as a single boundary; a boundary at the very end
produces no extra empty line. -/
def splitlinesGo : List Char → List Char → List (List Char)
  | [], acc => [acc.reverse]
  | '\r' :: '\n' :: rest, acc =>
    acc.reverse :: (if rest.isEmpty then [] else splitlinesGo rest [])
  | c :: rest, acc =>
    if isLineBoundary c then
      acc.reverse :: (if rest.isEmpty then [] else splitlinesGo rest [])
    else
      splitlinesGo rest (c :: acc)

/-- Python `content.splitlines()`. -/
def pySplitlines (s : String) : List (List Char) :=
  match s.data with
  | [] => []
  | cs => splitlinesGo cs []

/-- `get_secret_access_keys` from the source: group 2 of every match of
the secret regex, line by line. -/
def get_secret_access_keys (content : String) : List String :=
  ((pySplitlines content).map (fun line => (findallSecrets line).map String.mk)).flatten

/-- `verify_aws_secret_access_key` reduced to its decision on the
response: `false` exactly on HTTP 403, `true` on any other status.  The
network call itself is the oracle argument of `verify`. -/
def verify_aws_secret_access_key (response : Response) : Bool :=
  if response.status_code = 403 then false else true

/-- Python `dict` assignment `d[k] = v` on an insertion-ordered
association list: replace in place when the key is present, else
append. -/
def dictSet (k v : String) : List (String × String) → List (String × String)
  | [] => [(k, v)]
  | (k', v') :: rest => if k' = k then (k, v) :: rest else (k', v') :: dictSet k v rest

/-- Python `dict` lookup `d[k]` on an insertion-ordered association
list. -/
def lookupDict (k : String) : List (String × String) → Option String
  | [] => none
  | (k', v') :: rest => if k' = k then some v' else lookupDict k rest

/-- Outcome of one call to `verify`.  `result = none` models the
`AttributeError` raised when a candidate is accepted while
`potential_secret` is `None`; `record` is the potential-secret record
after the call; `queries` lists the candidate secrets that were sent to
the network, in order. -/
structure VerifyTrace where
  result : Option VerifiedResult
  record : Option PotentialSecret
  queries : List String
  deriving DecidableEq, Repr

/-- The `for candidate in secret_access_key` loop of `verify`: a network
call per candidate, short-circuiting on the first accepted one. -/
def verifyLoop (oracle : String → Response) (ps : Option PotentialSecret) :
    List String → VerifyTrace
  | [] => ⟨some VerifiedResult.VERIFIED_FALSE, ps, []⟩
  | candidate :: rest =>
    if verify_aws_secret_access_key (oracle candidate) then
      match ps with
      | some r =>
        ⟨some VerifiedResult.VERIFIED_TRUE,
          some { r with other_factors := dictSet "secret_access_key" candidate r.other_factors },
          [candidate]⟩
      | none => ⟨none, none, [candidate]⟩
    else
      let t := verifyLoop oracle ps rest
      ⟨t.result, t.record, candidate :: t.queries⟩

/-- `AWSKeyDetector.verify`.  The network is abstracted by `oracle`,
mapping a candidate secret to the response of the signed
GetCallerIdentity request made with the (fixed) `token` as access key. -/
def verify (oracle : String → Response) (token content : String)
    (potential_secret : Option PotentialSecret) : VerifyTrace :=
  if akiaMatchStart token = false then
    ⟨some VerifiedResult.UNVERIFIED, potential_secret, []⟩
  else
    let secret_access_key := get_secret_access_keys content
    if secret_access_key = [] then
      ⟨some VerifiedResult.UNVERIFIED, potential_secret, []⟩
    else
      verifyLoop oracle potential_secret secret_access_key

/-- `verify` as called with `potential_secret` left to its `None`
default. -/
def verifyDefault (oracle : String → Response) (token content : String) : VerifyTrace :=
  verify oracle token content none

/-! ### SHA-256, HMAC and the SigV4 signing pipeline of `query_aws`

Bytes are `Nat`s below 256, 32-bit words are `Nat`s reduced modulo
`2 ^ 32`.  `hashlib.sha256` and `hmac.new(·, ·, hashlib.sha256)` are
library primitives of the source; they are embedded by the standard
FIPS 180-4 / RFC 2104 algorithms they name. -/

/-- UTF-8 encoding of one code point. -/
def utf8Char (c : Char) : List Nat :=
  let n := c.toNat
  if n < 128 then [n]
  else if n < 2048 then [192 + n / 64, 128 + n % 64]
  else if n < 65536 then [224 + n / 4096, 128 + n / 64 % 64, 128 + n % 64]
  else [240 + n / 262144, 128 + n / 4096 % 64, 128 + n / 64 % 64, 128 + n % 64]

/-- Python `str.encode('utf-8')` as a byte list. -/
def utf8 (s : String) : List Nat :=
  (s.data.map utf8Char).flatten

/-- Reduction to a 32-bit word. -/
def w32 (x : Nat) : Nat := x % 4294967296

/-- Right rotation of a 32-bit word by `n`. -/
def rotr32 (n x : Nat) : Nat :=
  w32 ((x >>> n) ||| (x <<< (32 - n)))

/-- FIPS 180-4 `σ0`. -/
def sSigma0 (x : Nat) : Nat := rotr32 7 x ^^^ rotr32 18 x ^^^ (x >>> 3)

/-- FIPS 180-4 `σ1`. -/
def sSigma1 (x : Nat) : Nat := rotr32 17 x ^^^ rotr32 19 x ^^^ (x >>> 10)

/-- FIPS 180-4 `Σ0`. -/
def bSigma0 (x : Nat) : Nat := rotr32 2 x ^^^ rotr32 13 x ^^^ rotr32 22 x

/-- FIPS 180-4 `Σ1`. -/
def bSigma1 (x : Nat) : Nat := rotr32 6 x ^^^ rotr32 11 x ^^^ rotr32 25 x

/-- FIPS 180-4 `Ch`. -/
def chFn (x y z : Nat) : Nat := (x &&& y) ^^^ ((x ^^^ 4294967295) &&& z)

/-- FIPS 180-4 `Maj`. -/
def majFn (x y z : Nat) : Nat := (x &&& y) ^^^ (x &&& z) ^^^ (y &&& z)

/-- The 64 SHA-256 round constants, written in decimal. -/
def K256 : List Nat :=
  [1116352408, 1899447441, 3049323471, 3921009573,
   961987163, 1508970993, 2453635748, 2870763221,
   3624381080, 310598401, 607225278, 1426881987,
   1925078388, 2162078206, 2614888103, 3248222580,
   3835390401, 4022224774, 264347078, 604807628,
   770255983, 1249150122, 1555081692, 1996064986,
   2554220882, 2821834349, 2952996808, 3210313671,
   3336571891, 3584528711, 113926993, 338241895,
   666307205, 773529912, 1294757372, 1396182291,
   1695183700, 1986661051, 2177026350, 2456956037,
   2730485921, 2820302411, 3259730800, 3345764771,
   3516065817, 3600352804, 4094571909, 275423344,
   430227734, 506948616, 659060556, 883997877,
   958139571, 1322822218, 1537002063, 1747873779,
   1955562222, 2024104815, 2227730452, 2361852424,
   2428436474, 2756734187, 3204031479, 3329325298]

/-- The SHA-256 initial hash value, written in decimal. -/
def H256 : List Nat :=
  [1779033703, 3144134277, 1013904242, 2773480762,
   1359893119, 2600822924, 528734635, 1541459225]

/-- Big-endian 4-byte encoding of a 32-bit word. -/
def be32 (n : Nat) : List Nat :=
  [n / 16777216 % 256, n / 65536 % 256, n / 256 % 256, n % 256]

/-- Big-endian 8-byte encoding of the 64-bit message length. -/
def be64 (n : Nat) : List Nat :=
  [n / 72057594037927936 % 256, n / 281474976710656 % 256, n / 1099511627776 % 256,
   n / 4294967296 % 256, n / 16777216 % 256, n / 65536 % 256, n / 256 % 256, n % 256]

/-- SHA-256 message padding: `0x80`, zeros to 56 mod 64, then the bit
length on 8 bytes. -/
def sha256Pad (ms : List Nat) : List Nat :=
  ms ++ [128] ++ List.replicate ((119 - ms.length % 64) % 64) 0 ++ be64 (8 * ms.length)

/-- Big-endian packing of bytes into 32-bit words. -/
def toWords : List Nat → List Nat
  | a :: b :: c :: d :: rest => (a * 16777216 + b * 65536 + c * 256 + d) :: toWords rest
  | _ => []

/-- Split a word list into 16-word blocks. -/
def toBlocks : List Nat → List (List Nat)
  | [] => []
  | w :: ws => ((w :: ws).take 16) :: toBlocks ((w :: ws).drop 16)
termination_by l => l.length
decreasing_by simp [List.length_drop]; omega

/-- Extend a 16-word block to the 64-word message schedule; `n` counts
the remaining extension steps. -/
def extendSchedule : Nat → List Nat → List Nat
  | 0, ws => ws
  | n + 1, ws =>
    extendSchedule n
      (ws ++ [w32 (sSigma1 (ws.getD (ws.length - 2) 0) + ws.getD (ws.length - 7) 0 +
        sSigma0 (ws.getD (ws.length - 15) 0) + ws.getD (ws.length - 16) 0)])

/-- One round of the SHA-256 compression on the state `[a,b,c,d,e,f,g,h]`
with round constant `k` and schedule word `w`. -/
def sha256Round (st : List Nat) (k w : Nat) : List Nat :=
  match st with
  | [a, b, c, d, e, f, g, h] =>
    let t1 := w32 (h + bSigma1 e + chFn e f g + k + w)
    let t2 := w32 (bSigma0 a + majFn a b c)
    [w32 (t1 + t2), a, b, c, w32 (d + t1), e, f, g]
  | other => other

/-- SHA-256 compression of one block into the running hash. -/
def sha256Compress (h : List Nat) (block : List Nat) : List Nat :=
  let ws := extendSchedule 48 block
  let st := (K256.zip ws).foldl (fun s p => sha256Round s p.1 p.2) h
  (h.zip st).map (fun p => w32 (p.1 + p.2))

/-- `hashlib.sha256(·).digest()`: the SHA-256 digest of a byte list. -/
def sha256 (ms : List Nat) : List Nat :=
  (((toBlocks (toWords (sha256Pad ms))).foldl sha256Compress H256).map be32).flatten

/-- Two lowercase hex digits of a byte. -/
def hexByte (b : Nat) : List Char :=
  let d := fun n => if n < 10 then Char.ofNat (48 + n) else Char.ofNat (87 + n)
  [d (b / 16), d (b % 16)]

/-- `.hexdigest()`: lowercase hex string of a byte list. -/
def toHex (bs : List Nat) : String :=
  String.mk ((bs.map hexByte).flatten)

/-- RFC 2104 HMAC-SHA256 over byte lists (block size 64). -/
def hmacSha256 (key msg : List Nat) : List Nat :=
  let k0 := if 64 < key.length then sha256 key else key
  let k1 := k0 ++ List.replicate (64 - k0.length) 0
  sha256 ((k1.map (fun b => b ^^^ 92)) ++ sha256 ((k1.map (fun b => b ^^^ 54)) ++ msg))

/-- `_sign(key, message)` from the source: HMAC-SHA256 of the UTF-8
message under the byte-list key, returning the raw digest. -/
def _sign (key : List Nat) (message : String) : List Nat :=
  hmacSha256 key (utf8 message)

/-- `_sign(key, message, hex=True)` from the source: the hex digest. -/
def _signHex (key : List Nat) (message : String) : String :=
  toHex (hmacSha256 key (utf8 message))

/-- The instant `datetime.utcnow()` of one `query_aws` call, as the two
`strftime` renderings the source takes of it. -/
structure Timestamp where
  dateStamp : String
  timeOfDay : String
  deriving DecidableEq, Repr

/-- `now.strftime('%Y%m%dT%H%M%SZ')`, the `X-Amz-Date` value. -/
def amazonDatetime (t : Timestamp) : String :=
  t.dateStamp ++ "T" ++ t.timeOfDay ++ "Z"

/-- The fixed region of `query_aws`. -/
def region : String := "us-east-1"

/-- Python `str.lower()` (the header names here are ASCII). -/
def lowerStr (s : String) : String :=
  String.mk (s.data.map Char.toLower)

/-- `signed_headers`: the semicolon-joined lower-cased header names, in
insertion order. -/
def signedHeadersOf (headers : List (String × String)) : String :=
  String.intercalate ";" (headers.map (fun p => lowerStr p.1))

/-- The canonical header block: `lower(name):value` lines. -/
def headerBlock (headers : List (String × String)) : String :=
  String.intercalate "\n" (headers.map (fun p => lowerStr p.1 ++ ":" ++ p.2))

/-- `'&'.join('k=v' ...)`: the form-encoded body the payload hash is
taken over. -/
def bodyEncoding (body : List (String × String)) : String :=
  String.intercalate "&" (body.map (fun p => p.1 ++ "=" ++ p.2))

/-- Step 1 of `query_aws`: the canonical request. -/
def canonicalRequest (headers body : List (String × String)) : String :=
  "POST\n/\n\n" ++ headerBlock headers ++ "\n\n" ++ signedHeadersOf headers ++ "\n" ++
    toHex (sha256 (utf8 (bodyEncoding body)))

/-- The credential scope `<date>/us-east-1/sts/aws4_request`. -/
def awsScope (t : Timestamp) : String :=
  t.dateStamp ++ "/" ++ region ++ "/sts/aws4_request"

/-- Step 2 of `query_aws`: the string to sign. -/
def stringToSign (headers body : List (String × String)) (t : Timestamp) : String :=
  "AWS4-HMAC-SHA256\n" ++ amazonDatetime t ++ "\n" ++ awsScope t ++ "\n" ++
    toHex (sha256 (utf8 (canonicalRequest headers body)))

/-- Step 3 of `query_aws`: the four-stage chained signing key. -/
def signingKey (secret_access_key : String) (t : Timestamp) : List Nat :=
  _sign (_sign (_sign (_sign (utf8 ("AWS4" ++ secret_access_key)) t.dateStamp) region) "sts")
    "aws4_request"

/-- The final signature: hex HMAC-SHA256 of the string to sign under the
signing key. -/
def awsSignatureOf (secret_access_key : String) (t : Timestamp) (string_to_sign : String) :
    String :=
  _signHex (signingKey secret_access_key t) string_to_sign

/-- Step 4 of `query_aws`: the `Authorization` header value, computed
over the headers as they stand after `X-Amz-Date` was added. -/
def authorizationHeader (access_key secret_access_key : String)
    (headers body : List (String × String)) (t : Timestamp) : String :=
  "AWS4-HMAC-SHA256 " ++ "Credential=" ++ access_key ++ "/" ++ awsScope t ++ ", " ++
    "SignedHeaders=" ++ signedHeadersOf headers ++ ", " ++
    "Signature=" ++ awsSignatureOf secret_access_key t (stringToSign headers body t)

/-- The headers `query_aws` sends with the POST: the caller's headers
with `X-Amz-Date` and then `Authorization` added by dict assignment. -/
def query_aws_headers (access_key secret_access_key : String)
    (headers body : List (String × String)) (now : Timestamp) : List (String × String) :=
  let headers1 := dictSet "X-Amz-Date" (amazonDatetime now) headers
  dictSet "Authorization" (authorizationHeader access_key secret_access_key headers1 body now)
    headers1

/-! ### Helper lemmas -/

/-- `matchReps` consumes the whole input exactly when it has length `n`
and every character satisfies `p`. -/
theorem matchReps_eq_some_nil (p : Char → Bool) :
    ∀ (n : Nat) (cs : List Char),
      matchReps p n cs = some [] ↔ cs.length = n ∧ cs.all p = true := by
  intro n
  induction n with
  | zero => intro cs; cases cs <;> simp [matchReps]
  | succ n ih =>
    intro cs
    cases cs with
    | nil => simp [matchReps]
    | cons c cs =>
      by_cases h : p c = true
      · simp [matchReps, h, ih]
      · simp [matchReps, h]

/-- A candidate is rejected exactly on status 403. -/
theorem verify_key_eq_false {r : Response} (h : r.status_code = 403) :
    verify_aws_secret_access_key r = false := by
  simp [verify_aws_secret_access_key, h]

/-- A candidate is accepted exactly on a non-403 status. -/
theorem verify_key_eq_true {r : Response} (h : r.status_code ≠ 403) :
    verify_aws_secret_access_key r = true := by
  simp [verify_aws_secret_access_key, h]

/-- When every candidate draws a 403, the loop returns `VERIFIED_FALSE`,
leaves the record alone and has queried every candidate in order. -/
theorem verifyLoop_all_rejected (oracle : String → Response) (ps : Option PotentialSecret) :
    ∀ cands, (∀ c ∈ cands, (oracle c).status_code = 403) →
      verifyLoop oracle ps cands = ⟨some VerifiedResult.VERIFIED_FALSE, ps, cands⟩ := by
  intro cands
  induction cands with
  | nil => intro _; rfl
  | cons c rest ih =>
    intro h
    have hc : (oracle c).status_code = 403 := h c (List.mem_cons_self c rest)
    have ht := ih (fun x hx => h x (List.mem_cons_of_mem c hx))
    simp [verifyLoop, verify_key_eq_false hc, ht]

/-- With a record present, the loop on a first accepted candidate after
rejected ones returns `VERIFIED_TRUE`, records the candidate, and has
queried exactly the rejected ones followed by the accepted one. -/
theorem verifyLoop_first_accepted_some (oracle : String → Response) (r : PotentialSecret) :
    ∀ l1 (c : String) (l2 : List String), (∀ c' ∈ l1, (oracle c').status_code = 403) →
      (oracle c).status_code ≠ 403 →
      verifyLoop oracle (some r) (l1 ++ c :: l2) =
        ⟨some VerifiedResult.VERIFIED_TRUE,
          some { r with other_factors := dictSet "secret_access_key" c r.other_factors },
          l1 ++ [c]⟩ := by
  intro l1
  induction l1 with
  | nil => intro c l2 _ hc; simp [verifyLoop, verify_key_eq_true hc]
  | cons x l1 ih =>
    intro c l2 h1 hc
    have hx : (oracle x).status_code = 403 := h1 x (List.mem_cons_self x l1)
    have ht := ih c l2 (fun y hy => h1 y (List.mem_cons_of_mem x hy)) hc
    simp [verifyLoop, verify_key_eq_false hx, ht]

/-- With no record, the loop on a first accepted candidate models the
`AttributeError`: no result, and the queries stop at that candidate. -/
theorem verifyLoop_first_accepted_none (oracle : String → Response) :
    ∀ l1 (c : String) (l2 : List String), (∀ c' ∈ l1, (oracle c').status_code = 403) →
      (oracle c).status_code ≠ 403 →
      verifyLoop oracle none (l1 ++ c :: l2) = ⟨none, none, l1 ++ [c]⟩ := by
  intro l1
  induction l1 with
  | nil => intro c l2 _ hc; simp [verifyLoop, verify_key_eq_true hc]
  | cons x l1 ih =>
    intro c l2 h1 hc
    have hx : (oracle x).status_code = 403 := h1 x (List.mem_cons_self x l1)
    have ht := ih c l2 (fun y hy => h1 y (List.mem_cons_of_mem x hy)) hc
    simp [verifyLoop, verify_key_eq_false hx, ht]

/-- The loop consults nothing of the responses beyond the status code. -/
theorem verifyLoop_status_only (oracle1 oracle2 : String → Response)
    (h : ∀ s, (oracle1 s).status_code = (oracle2 s).status_code) (ps : Option PotentialSecret) :
    ∀ cands, verifyLoop oracle1 ps cands = verifyLoop oracle2 ps cands := by
  intro cands
  induction cands with
  | nil => rfl
  | cons c rest ih =>
    simp only [verifyLoop, verify_aws_secret_access_key, h c, ih]

/-- With a record present the loop either rejects everything, keeping the
record, or accepts some candidate and only extends `other_factors`. -/
theorem verifyLoop_record_cases (oracle : String → Response) (r : PotentialSecret) :
    ∀ cands,
      ((verifyLoop oracle (some r) cands).result = some VerifiedResult.VERIFIED_FALSE ∧
        (verifyLoop oracle (some r) cands).record = some r) ∨
      (∃ c, (verifyLoop oracle (some r) cands).result = some VerifiedResult.VERIFIED_TRUE ∧
        (verifyLoop oracle (some r) cands).record =
          some { r with other_factors := dictSet "secret_access_key" c r.other_factors }) := by
  intro cands
  induction cands with
  | nil => exact Or.inl ⟨rfl, rfl⟩
  | cons c rest ih =>
    by_cases hc : (oracle c).status_code = 403
    · rcases ih with ⟨h1, h2⟩ | ⟨x, h1, h2⟩
      · exact Or.inl ⟨by simp [verifyLoop, verify_key_eq_false hc, h1],
          by simp [verifyLoop, verify_key_eq_false hc, h2]⟩
      · exact Or.inr ⟨x, by simp [verifyLoop, verify_key_eq_false hc, h1],
          by simp [verifyLoop, verify_key_eq_false hc, h2]⟩
    · exact Or.inr ⟨c, by simp [verifyLoop, verify_key_eq_true hc],
        by simp [verifyLoop, verify_key_eq_true hc]⟩

/-! ### Claims about `verify` -/

/-- C1: per candidate, a 403 response rejects the candidate and the next
one is tried; any other status accepts it — `verify` records it and
returns `VERIFIED_TRUE`; and the status code is the only response field
consulted. -/
theorem spec_C1 :
    (∀ (oracle : String → Response) (ps : Option PotentialSecret) candidate rest,
      (oracle candidate).status_code = 403 →
      verifyLoop oracle ps (candidate :: rest) =
        ⟨(verifyLoop oracle ps rest).result, (verifyLoop oracle ps rest).record,
          candidate :: (verifyLoop oracle ps rest).queries⟩) ∧
    (∀ (oracle : String → Response) (r : PotentialSecret) candidate rest,
      (oracle candidate).status_code ≠ 403 →
      verifyLoop oracle (some r) (candidate :: rest) =
        ⟨some VerifiedResult.VERIFIED_TRUE,
          some { r with other_factors := dictSet "secret_access_key" candidate r.other_factors },
          [candidate]⟩) ∧
    (∀ (oracle1 oracle2 : String → Response) token content ps,
      (∀ s, (oracle1 s).status_code = (oracle2 s).status_code) →
      verify oracle1 token content ps = verify oracle2 token content ps) := by
  refine ⟨?_, ?_, ?_⟩
  · intro oracle ps candidate rest h
    simp [verifyLoop, verify_key_eq_false h]
  · intro oracle r candidate rest h
    simp [verifyLoop, verify_key_eq_true h]
  · intro oracle1 oracle2 token content ps h
    simp only [verify, verifyLoop_status_only oracle1 oracle2 h]

/-- Witness for C1 at concrete inputs. -/
theorem spec_C1_witness :
    verifyLoop (fun _ => ⟨403, "denied"⟩) none ["s1", "s2"] =
      ⟨(verifyLoop (fun _ => ⟨403, "denied"⟩) none ["s2"]).result,
        (verifyLoop (fun _ => ⟨403, "denied"⟩) none ["s2"]).record,
        "s1" :: (verifyLoop (fun _ => ⟨403, "denied"⟩) none ["s2"]).queries⟩ ∧
    verifyLoop (fun _ => ⟨200, "ok"⟩) (some ⟨"AWS Access Key", "f.txt", 3, []⟩) ["s1", "s2"] =
      ⟨some VerifiedResult.VERIFIED_TRUE,
        some ⟨"AWS Access Key", "f.txt", 3, [("secret_access_key", "s1")]⟩, ["s1"]⟩ ∧
    verify (fun _ => ⟨403, "denied"⟩) "AKIA0123456789ABCDEF" "x" none =
      verify (fun _ => ⟨403, "ignored"⟩) "AKIA0123456789ABCDEF" "x" none :=
  ⟨spec_C1.1 (fun _ => ⟨403, "denied"⟩) none "s1" ["s2"] (by decide),
    spec_C1.2.1 (fun _ => ⟨200, "ok"⟩) ⟨"AWS Access Key", "f.txt", 3, []⟩ "s1" ["s2"] (by decide),
    spec_C1.2.2 (fun _ => ⟨403, "denied"⟩) (fun _ => ⟨403, "ignored"⟩)
      "AKIA0123456789ABCDEF" "x" none (fun _ => rfl)⟩

/-- C2, counterexample: the token `AKIAABCDEFGHIJKLMNOPQ` does not match
the pattern `AKIA[0-9A-Z]{16}` exactly (it is 21 characters long), yet
`verify` — whose guard is Python `re.match`, anchored only at the start —
proceeds past the guard, makes a network call, and does not return
`UNVERIFIED`. -/
theorem spec_C2_counterexample :
    akiaFullMatch "AKIAABCDEFGHIJKLMNOPQ" = false ∧
    (verify (fun _ => ⟨200, "ok"⟩) "AKIAABCDEFGHIJKLMNOPQ"
        "x = 'AAAAAAAAAAAAAAAAAAAAAAAAAAAAAAAAAAAAAAAA'"
        (some ⟨"AWS Access Key", "f.txt", 3, []⟩)).queries ≠ [] ∧
    (verify (fun _ => ⟨200, "ok"⟩) "AKIAABCDEFGHIJKLMNOPQ"
        "x = 'AAAAAAAAAAAAAAAAAAAAAAAAAAAAAAAAAAAAAAAA'"
        (some ⟨"AWS Access Key", "f.txt", 3, []⟩)).result ≠
      some VerifiedResult.UNVERIFIED := by
  refine ⟨by decide, by decide, by decide⟩

/-- C2 as amended: if the token does not match the access-key-ID pattern
at the start of the string (Python `re.match` semantics), `verify`
returns `UNVERIFIED` immediately without making any network call; and if
extraction yields zero secret candidates from the content, `verify` also
returns `UNVERIFIED` without making any network call. -/
theorem spec_C2_amended :
    (∀ (oracle : String → Response) token content ps, akiaMatchStart token = false →
      verify oracle token content ps = ⟨some VerifiedResult.UNVERIFIED, ps, []⟩) ∧
    (∀ (oracle : String → Response) token content ps, get_secret_access_keys content = [] →
      verify oracle token content ps = ⟨some VerifiedResult.UNVERIFIED, ps, []⟩) := by
  constructor
  · intro oracle token content ps h
    simp [verify, h]
  · intro oracle token content ps h
    by_cases hm : akiaMatchStart token = false <;> simp [verify, hm, h]

/-- Witness for C2 (amended) at concrete inputs. -/
theorem spec_C2_witness :
    verify (fun _ => ⟨200, "ok"⟩) "notakey" "x = 'abc'" none =
      ⟨some VerifiedResult.UNVERIFIED, none, []⟩ ∧
    verify (fun _ => ⟨200, "ok"⟩) "AKIA0123456789ABCDEF" "no secrets here" none =
      ⟨some VerifiedResult.UNVERIFIED, none, []⟩ :=
  ⟨spec_C2_amended.1 (fun _ => ⟨200, "ok"⟩) "notakey" "x = 'abc'" none (by decide),
    spec_C2_amended.2 (fun _ => ⟨200, "ok"⟩) "AKIA0123456789ABCDEF" "no secrets here" none
      (by decide)⟩

/-- C3: candidates are tried in sequence, short-circuiting at the first
accepted one; if every extracted candidate is rejected with 403, `verify`
returns `VERIFIED_FALSE`. -/
theorem spec_C3 :
    (∀ (oracle : String → Response) (ps : Option PotentialSecret) cands,
      (∀ c ∈ cands, (oracle c).status_code = 403) →
      verifyLoop oracle ps cands = ⟨some VerifiedResult.VERIFIED_FALSE, ps, cands⟩) ∧
    (∀ (oracle : String → Response) token content ps,
      akiaMatchStart token = true →
      get_secret_access_keys content ≠ [] →
      (∀ c ∈ get_secret_access_keys content, (oracle c).status_code = 403) →
      verify oracle token content ps =
        ⟨some VerifiedResult.VERIFIED_FALSE, ps, get_secret_access_keys content⟩) ∧
    (∀ (oracle : String → Response) (r : PotentialSecret) l1 (c : String) (l2 : List String),
      (∀ c' ∈ l1, (oracle c').status_code = 403) →
      (oracle c).status_code ≠ 403 →
      (verifyLoop oracle (some r) (l1 ++ c :: l2)).queries = l1 ++ [c] ∧
      (verifyLoop oracle (some r) (l1 ++ c :: l2)).result = some VerifiedResult.VERIFIED_TRUE) := by
  refine ⟨?_, ?_, ?_⟩
  · intro oracle ps cands h
    exact verifyLoop_all_rejected oracle ps cands h
  · intro oracle token content ps htok hne h
    have hv : verify oracle token content ps =
        verifyLoop oracle ps (get_secret_access_keys content) := by
      simp [verify, htok, hne]
    rw [hv]
    exact verifyLoop_all_rejected oracle ps _ h
  · intro oracle r l1 c l2 h1 hc
    rw [verifyLoop_first_accepted_some oracle r l1 c l2 h1 hc]
    exact ⟨rfl, rfl⟩

/-- Witness for C3 at concrete inputs. -/
theorem spec_C3_witness :
    verify (fun _ => ⟨403, "denied"⟩) "AKIA0123456789ABCDEF"
        "x = 'AAAAAAAAAAAAAAAAAAAAAAAAAAAAAAAAAAAAAAAA'" none =
      ⟨some VerifiedResult.VERIFIED_FALSE, none,
        get_secret_access_keys "x = 'AAAAAAAAAAAAAAAAAAAAAAAAAAAAAAAAAAAAAAAA'"⟩ ∧
    (verifyLoop (fun s => if s = "bad" then ⟨403, ""⟩ else ⟨200, ""⟩)
        (some ⟨"AWS Access Key", "f.txt", 3, []⟩) (["bad"] ++ "good" :: ["later"])).queries =
      ["bad"] ++ ["good"] :=
  ⟨spec_C3.2.1 (fun _ => ⟨403, "denied"⟩) "AKIA0123456789ABCDEF"
      "x = 'AAAAAAAAAAAAAAAAAAAAAAAAAAAAAAAAAAAAAAAA'" none (by decide) (by decide)
      (fun _ _ => rfl),
    (spec_C3.2.2 (fun s => if s = "bad" then ⟨403, ""⟩ else ⟨200, ""⟩)
      ⟨"AWS Access Key", "f.txt", 3, []⟩ ["bad"] "good" ["later"]
      (by intro c' hc'; simp at hc'; subst hc'; decide) (by decide)).1⟩

/-- C5: the access-key pattern `AKIA[0-9A-Z]{16}` matches, as a full
match, exactly the strings `AKIA` followed by 16 uppercase alphanumeric
characters — nothing shorter or longer. -/
theorem spec_C5 :
    (∀ w : List Char, w.length = 16 → w.all keyChar = true →
      akiaFullMatch (String.mk ('A' :: 'K' :: 'I' :: 'A' :: w)) = true) ∧
    (∀ s : String, akiaFullMatch s = true →
      s.length = 20 ∧ s.data.take 4 = ['A', 'K', 'I', 'A'] ∧
        (s.data.drop 4).all keyChar = true) := by
  constructor
  · intro w h16 hall
    show decide (matchReps keyChar 16 w = some []) = true
    exact decide_eq_true ((matchReps_eq_some_nil keyChar 16 w).mpr ⟨h16, hall⟩)
  · intro s h
    unfold akiaFullMatch at h
    split at h
    case _ rest heq =>
      have hm := of_decide_eq_true h
      obtain ⟨hlen, hall⟩ := (matchReps_eq_some_nil keyChar 16 rest).mp hm
      have hdata : s.length = s.data.length := rfl
      refine ⟨?_, ?_, ?_⟩
      · rw [hdata, heq]; simp [hlen]
      · rw [heq]; rfl
      · rw [heq]; simpa using hall
    case _ => exact absurd h (by simp)

/-- Witness for C5 at concrete inputs. -/
theorem spec_C5_witness :
    akiaFullMatch (String.mk ('A' :: 'K' :: 'I' :: 'A' :: "0123456789ABCDEF".data)) = true ∧
    ("AKIA0123456789ABCDEF".length = 20 ∧
      "AKIA0123456789ABCDEF".data.take 4 = ['A', 'K', 'I', 'A'] ∧
      ("AKIA0123456789ABCDEF".data.drop 4).all keyChar = true) :=
  ⟨spec_C5.1 "0123456789ABCDEF".data (by decide) (by decide),
    spec_C5.2 "AKIA0123456789ABCDEF" (by decide)⟩

/-- C9: `potential_secret` defaults to `None`; when it is `None`, the
token passes the guard, at least one candidate is extracted, and the
first non-403 candidate is reached, `verify` raises (attribute access on
`None`, modelled as `result = none`) instead of returning a tri-state
result. -/
theorem spec_C9 :
    (∀ (oracle : String → Response) token content,
      verifyDefault oracle token content = verify oracle token content none) ∧
    (∀ (oracle : String → Response) token content l1 (c : String) (l2 : List String),
      akiaMatchStart token = true →
      get_secret_access_keys content = l1 ++ c :: l2 →
      (∀ c' ∈ l1, (oracle c').status_code = 403) →
      (oracle c).status_code ≠ 403 →
      (verify oracle token content none).result = none) := by
  constructor
  · intro oracle token content; rfl
  · intro oracle token content l1 c l2 htok hcands h1 hc
    have hne : get_secret_access_keys content ≠ [] := by
      rw [hcands]; exact List.append_ne_nil_of_right_ne_nil l1 (List.cons_ne_nil c l2)
    have hv : verify oracle token content none =
        verifyLoop oracle none (get_secret_access_keys content) := by
      simp [verify, htok, hne]
    rw [hv, hcands, verifyLoop_first_accepted_none oracle l1 c l2 h1 hc]

/-- Witness for C9 at concrete inputs. -/
theorem spec_C9_witness :
    (verify (fun _ => ⟨200, "ok"⟩) "AKIA0123456789ABCDEF"
      "x = 'AAAAAAAAAAAAAAAAAAAAAAAAAAAAAAAAAAAAAAAA'" none).result = none :=
  spec_C9.2 (fun _ => ⟨200, "ok"⟩) "AKIA0123456789ABCDEF"
    "x = 'AAAAAAAAAAAAAAAAAAAAAAAAAAAAAAAAAAAAAAAA'" []
    "AAAAAAAAAAAAAAAAAAAAAAAAAAAAAAAAAAAAAAAA" [] (by decide) (by decide)
    (fun _ h => absurd h (List.not_mem_nil _)) (by decide)

/-- C10: on the `UNVERIFIED` and `VERIFIED_FALSE` paths the caller-owned
record is returned unchanged; `other_factors` gains the
`secret_access_key` entry only on the `VERIFIED_TRUE` path; and no field
other than `other_factors` is ever written. -/
theorem spec_C10 :
    ∀ (oracle : String → Response) token content (r : PotentialSecret),
      (((verify oracle token content (some r)).result = some VerifiedResult.UNVERIFIED ∨
        (verify oracle token content (some r)).result = some VerifiedResult.VERIFIED_FALSE) →
        (verify oracle token content (some r)).record = some r) ∧
      ((verify oracle token content (some r)).result = some VerifiedResult.VERIFIED_TRUE →
        ∃ c, (verify oracle token content (some r)).record =
          some { r with other_factors := dictSet "secret_access_key" c r.other_factors }) ∧
      (∀ r', (verify oracle token content (some r)).record = some r' →
        r'.secret_type = r.secret_type ∧ r'.filename = r.filename ∧ r'.lineno = r.lineno) := by
  intro oracle token content r
  by_cases hm : akiaMatchStart token = false
  · refine ⟨fun _ => by simp [verify, hm], fun h => ?_, fun r' h => ?_⟩
    · simp [verify, hm] at h
    · simp [verify, hm] at h; subst h; exact ⟨rfl, rfl, rfl⟩
  · by_cases hc : get_secret_access_keys content = []
    · refine ⟨fun _ => by simp [verify, hm, hc], fun h => ?_, fun r' h => ?_⟩
      · simp [verify, hm, hc] at h
      · simp [verify, hm, hc] at h; subst h; exact ⟨rfl, rfl, rfl⟩
    · have hv : verify oracle token content (some r) =
          verifyLoop oracle (some r) (get_secret_access_keys content) := by
        simp [verify, hm, hc]
      rcases verifyLoop_record_cases oracle r (get_secret_access_keys content) with
        ⟨h1, h2⟩ | ⟨c, h1, h2⟩
      · refine ⟨fun _ => by rw [hv, h2], fun h => ?_, fun r' h => ?_⟩
        · rw [hv, h1] at h; exact absurd h (by simp)
        · rw [hv, h2] at h
          have : r' = r := by injection h with h'; exact h'.symm
          subst this; exact ⟨rfl, rfl, rfl⟩
      · refine ⟨fun h => ?_, fun _ => ⟨c, by rw [hv, h2]⟩, fun r' h => ?_⟩
        · rw [hv, h1] at h
          rcases h with h | h <;> exact absurd h (by simp)
        · rw [hv, h2] at h
          have : r' = { r with other_factors := dictSet "secret_access_key" c r.other_factors } := by
            injection h with h'; exact h'.symm
          subst this; exact ⟨rfl, rfl, rfl⟩

/-- Witness for C10 at concrete inputs. -/
theorem spec_C10_witness :
    (verify (fun _ => ⟨403, "denied"⟩) "AKIA0123456789ABCDEF"
      "x = 'AAAAAAAAAAAAAAAAAAAAAAAAAAAAAAAAAAAAAAAA'"
      (some ⟨"AWS Access Key", "f.txt", 3, []⟩)).record =
      some ⟨"AWS Access Key", "f.txt", 3, []⟩ :=
  (spec_C10 (fun _ => ⟨403, "denied"⟩) "AKIA0123456789ABCDEF"
    "x = 'AAAAAAAAAAAAAAAAAAAAAAAAAAAAAAAAAAAAAAAA'"
    ⟨"AWS Access Key", "f.txt", 3, []⟩).1 (Or.inr (by decide))

/-! ### The secret extractor (C4) -/

/-- A character of the secret class is not a space. -/
theorem secretAlphabet_not_space {c : Char} (h : secretAlphabet c = true) : (c == ' ') = false := by
  cases hc : c == ' '
  · rfl
  · exfalso
    have : c = ' ' := eq_of_beq hc
    subst this
    exact absurd h (by decide)

/-- A character of the secret class is neither kind of quote. -/
theorem secretAlphabet_not_quote {c : Char} (h : secretAlphabet c = true) :
    c ≠ '\'' ∧ c ≠ '"' := by
  constructor <;> rintro rfl <;> exact absurd h (by decide)

/-- Dropping spaces walks through an all-space block. -/
theorem dropWhile_space_append (sp t : List Char) (hsp : sp.all (· == ' ') = true) :
    (sp ++ t).dropWhile (· == ' ') = t.dropWhile (· == ' ') := by
  induction sp with
  | nil => rfl
  | cons c sp ih =>
    rw [List.all_cons, Bool.and_eq_true] at hsp
    simpa [List.dropWhile_cons, hsp.1] using ih hsp.2

/-- Inversion of the quoted alternative. -/
theorem tryQuoted_eq_some {q : Char} {r2 v : List Char} (h : tryQuoted q r2 = some v) :
    r2 = v ++ [q] ∧ v.length = 40 ∧ v.all secretAlphabet = true := by
  unfold tryQuoted at h
  split at h
  case isTrue hc =>
    injection h with h'
    subst h'
    refine ⟨?_, hc.1, hc.2.1⟩
    conv_lhs => rw [← List.take_append_drop 40 r2]
    rw [hc.2.2]
  case isFalse => exact absurd h (by simp)

/-- Inversion of the bare alternative. -/
theorem tryBare_eq_some {r v : List Char} (h : tryBare r = some v) :
    r = v ∧ v.length = 40 ∧ v.all secretAlphabet = true := by
  unfold tryBare at h
  split at h
  case isTrue hc =>
    injection h with h'
    subst h'
    exact ⟨rfl, hc.1, hc.2⟩
  case isFalse => exact absurd h (by simp)

/-- Every character kept by `takeWhile` satisfies the predicate. -/
theorem all_takeWhile (p : Char → Bool) : ∀ l : List Char, (l.takeWhile p).all p = true := by
  intro l
  induction l with
  | nil => rfl
  | cons c l ih => cases hc : p c <;> simp [List.takeWhile_cons, hc, ih]

/-- Inversion of one attempt of the secret regex: a successful match at a
position decomposes the suffix as `=`, spaces, an optional quote, the
40-character value from the class, the matching quote, end of line. -/
theorem matchEq_eq_some : ∀ {cs v : List Char}, matchEq cs = some v →
    ∃ sp q, cs = '=' :: (sp ++ (q ++ (v ++ q))) ∧ sp.all (· == ' ') = true ∧
      (q = [] ∨ q = ['\''] ∨ q = ['"']) ∧ v.length = 40 ∧ v.all secretAlphabet = true := by
  intro cs v h
  unfold matchEq at h
  split at h
  case _ rest =>
    have hsplit : rest.takeWhile (· == ' ') ++ rest.dropWhile (· == ' ') = rest :=
      List.takeWhile_append_dropWhile (· == ' ') rest
    have hsp : (rest.takeWhile (· == ' ')).all (· == ' ') = true := all_takeWhile _ rest
    split at h
    case _ c r2 heq =>
      rw [heq] at hsplit
      by_cases hq : c = '\'' ∨ c = '"'
      · rw [if_pos hq] at h
        obtain ⟨hr2, h40, hall⟩ := tryQuoted_eq_some h
        refine ⟨rest.takeWhile (· == ' '), [c], ?_, hsp, Or.inr ?_, h40, hall⟩
        · conv_lhs => rw [← hsplit]
          rw [hr2]
          simp
        · rcases hq with rfl | rfl
          · exact Or.inl rfl
          · exact Or.inr rfl
      · rw [if_neg hq] at h
        obtain ⟨hr, h40, hall⟩ := tryBare_eq_some h
        refine ⟨rest.takeWhile (· == ' '), [], ?_, hsp, Or.inl rfl, h40, hall⟩
        conv_lhs => rw [← hsplit]
        rw [hr]
        simp
    case _ => exact absurd h (by simp)
  case _ => exact absurd h (by simp)

/-- Construction of a bare match: `=`, spaces, then exactly the
40-character value at end of line. -/
theorem matchEq_construct_bare {sp v : List Char} (hsp : sp.all (· == ' ') = true)
    (h40 : v.length = 40) (hall : v.all secretAlphabet = true) :
    matchEq ('=' :: (sp ++ v)) = some v := by
  cases v with
  | nil => simp at h40
  | cons c v' =>
    have hc : secretAlphabet c = true := by
      rw [List.all_cons, Bool.and_eq_true] at hall
      exact hall.1
    have hcs : (c == ' ') = false := secretAlphabet_not_space hc
    have hnq := secretAlphabet_not_quote hc
    show matchEq ('=' :: (sp ++ c :: v')) = some (c :: v')
    simp only [matchEq]
    rw [dropWhile_space_append sp (c :: v') hsp]
    simp only [List.dropWhile_cons, hcs, Bool.false_eq_true, if_false]
    rw [if_neg (by rintro (rfl | rfl) <;> simp at hnq)]
    unfold tryBare
    rw [if_pos ⟨h40, hall⟩]

/-- Construction of a quoted match: `=`, spaces, a quote, exactly the
40-character value, the same quote, end of line. -/
theorem matchEq_construct_quoted {sp v : List Char} {q : Char} (hq : q = '\'' ∨ q = '"')
    (hsp : sp.all (· == ' ') = true) (h40 : v.length = 40)
    (hall : v.all secretAlphabet = true) :
    matchEq ('=' :: (sp ++ (q :: (v ++ [q])))) = some v := by
  have hqs : (q == ' ') = false := by rcases hq with rfl | rfl <;> decide
  simp only [matchEq]
  rw [dropWhile_space_append sp (q :: (v ++ [q])) hsp]
  simp only [List.dropWhile_cons, hqs, Bool.false_eq_true, if_false]
  rw [if_pos hq]
  unfold tryQuoted
  have htake : (v ++ [q]).take 40 = v := by
    rw [← h40]
    exact List.take_left v [q]
  have hdrop : (v ++ [q]).drop 40 = [q] := by
    rw [← h40]
    exact List.drop_left v [q]
  rw [if_pos ⟨by rw [htake, h40], by rw [htake]; exact hall, hdrop⟩, htake]

/-- Soundness of `findall` on a line: every returned value comes from a
match at some position. -/
theorem findallSecrets_sound : ∀ {line v : List Char}, v ∈ findallSecrets line →
    ∃ pre suf, line = pre ++ suf ∧ matchEq suf = some v := by
  intro line
  induction line with
  | nil => intro v h; simp [findallSecrets] at h
  | cons c rest ih =>
    intro v h
    cases hm : matchEq (c :: rest) with
    | some w =>
      rw [findallSecrets, hm] at h
      rw [List.mem_singleton] at h
      subst h
      exact ⟨[], c :: rest, rfl, hm⟩
    | none =>
      rw [findallSecrets, hm] at h
      obtain ⟨pre, suf, heq, hms⟩ := ih h
      exact ⟨c :: pre, suf, by rw [heq]; rfl, hms⟩

/-- Completeness of `findall` on a line: a match at any position makes
the result non-empty. -/
theorem findallSecrets_ne_nil : ∀ (pre : List Char) {suf v : List Char},
    matchEq suf = some v → findallSecrets (pre ++ suf) ≠ [] := by
  intro pre
  induction pre with
  | nil =>
    intro suf v h
    cases suf with
    | nil => simp [matchEq] at h
    | cons c r =>
      rw [List.nil_append, findallSecrets, h]
      simp
  | cons p pre' ih =>
    intro suf v h
    show findallSecrets (p :: (pre' ++ suf)) ≠ []
    cases hm : matchEq (p :: (pre' ++ suf)) with
    | some w => rw [findallSecrets, hm]; simp
    | none => rw [findallSecrets, hm]; exact ih h

/-- Soundness of the extractor over whole content: every returned string
is a 40-character value of the class, assigned via `=` (with an optional
matching quote) and anchored at the end of one of the lines. -/
theorem get_keys_sound {content v : String} (h : v ∈ get_secret_access_keys content) :
    ∃ line ∈ pySplitlines content, ∃ pre sp q,
      line = pre ++ '=' :: (sp ++ (q ++ (v.data ++ q))) ∧ sp.all (· == ' ') = true ∧
      (q = [] ∨ q = ['\''] ∨ q = ['"']) ∧ v.length = 40 ∧
      v.data.all secretAlphabet = true := by
  unfold get_secret_access_keys at h
  rw [List.mem_flatten] at h
  obtain ⟨l, hl, hv⟩ := h
  rw [List.mem_map] at hl
  obtain ⟨line, hline, rfl⟩ := hl
  rw [List.mem_map] at hv
  obtain ⟨w, hw, rfl⟩ := hv
  obtain ⟨pre0, suf, heq, hms⟩ := findallSecrets_sound hw
  obtain ⟨sp, q, hsuf, hsp, hq, h40, hall⟩ := matchEq_eq_some hms
  exact ⟨line, hline, pre0, sp, q, by rw [heq, hsuf], hsp, hq, h40, hall⟩

/-- C4: the extractor returns the substrings assigned via `=` to a quoted
or bare 40-character value over letters, digits, `+`, `/`, `=`, per line
and anchored at end of line — every returned value has that shape
(soundness), a line of that shape yields a value (completeness, bare and
quoted alternatives), and on the line
`aws_secret = "abcdEFGH01234567890123456789012345678+/="` it returns
exactly that 40-character value. -/
theorem spec_C4 :
    get_secret_access_keys "aws_secret = \"abcdEFGH01234567890123456789012345678+/=\"" =
      ["abcdEFGH01234567890123456789012345678+/="] ∧
    (∀ content v : String, v ∈ get_secret_access_keys content →
      ∃ line ∈ pySplitlines content, ∃ pre sp q,
        line = pre ++ '=' :: (sp ++ (q ++ (v.data ++ q))) ∧ sp.all (· == ' ') = true ∧
        (q = [] ∨ q = ['\''] ∨ q = ['"']) ∧ v.length = 40 ∧
        v.data.all secretAlphabet = true) ∧
    (∀ pre sp v : List Char, sp.all (· == ' ') = true → v.length = 40 →
      v.all secretAlphabet = true →
      findallSecrets (pre ++ '=' :: (sp ++ v)) ≠ []) ∧
    (∀ (pre sp v : List Char) (q : Char), (q = '\'' ∨ q = '"') →
      sp.all (· == ' ') = true → v.length = 40 → v.all secretAlphabet = true →
      findallSecrets (pre ++ '=' :: (sp ++ (q :: (v ++ [q])))) ≠ []) := by
  refine ⟨by decide, fun content v h => get_keys_sound h, ?_, ?_⟩
  · intro pre sp v hsp h40 hall
    exact findallSecrets_ne_nil pre (matchEq_construct_bare hsp h40 hall)
  · intro pre sp v q hq hsp h40 hall
    exact findallSecrets_ne_nil pre (matchEq_construct_quoted hq hsp h40 hall)

/-- Witness for C4 at concrete inputs. -/
theorem spec_C4_witness :
    (∃ line ∈ pySplitlines "x = 'AAAAAAAAAAAAAAAAAAAAAAAAAAAAAAAAAAAAAAAA'", ∃ pre sp q,
      line = pre ++ '=' :: (sp ++
        (q ++ (("AAAAAAAAAAAAAAAAAAAAAAAAAAAAAAAAAAAAAAAA" : String).data ++ q))) ∧
      sp.all (· == ' ') = true ∧ (q = [] ∨ q = ['\''] ∨ q = ['"']) ∧
      ("AAAAAAAAAAAAAAAAAAAAAAAAAAAAAAAAAAAAAAAA" : String).length = 40 ∧
      ("AAAAAAAAAAAAAAAAAAAAAAAAAAAAAAAAAAAAAAAA" : String).data.all secretAlphabet = true) ∧
    findallSecrets (['k'] ++ '=' :: ([' '] ++ List.replicate 40 'B')) ≠ [] :=
  ⟨spec_C4.2.1 "x = 'AAAAAAAAAAAAAAAAAAAAAAAAAAAAAAAAAAAAAAAA'"
      "AAAAAAAAAAAAAAAAAAAAAAAAAAAAAAAAAAAAAAAA" (by decide),
    spec_C4.2.2.1 ['k'] [' '] (List.replicate 40 'B') (by decide) (by decide) (by decide)⟩

/-! ### The SigV4 signer (C6, C7, C8) -/

/-- Dict assignment followed by lookup of the same key yields the
assigned value. -/
theorem lookupDict_dictSet (k v : String) :
    ∀ l : List (String × String), lookupDict k (dictSet k v l) = some v := by
  intro l
  induction l with
  | nil => simp [dictSet, lookupDict]
  | cons p rest ih =>
    by_cases hp : p.1 = k
    · simp [dictSet, hp, lookupDict]
    · simp [dictSet, hp, lookupDict, ih]

/-- C6: the signing key is the four-stage HMAC-SHA256 chain
`HMAC(HMAC(HMAC(HMAC("AWS4"+secret, date), "us-east-1"), "sts"),
"aws4_request")` — each stage's raw digest keys the next stage, each
message being the UTF-8 bytes of a plain string — and the signature is
the hex HMAC-SHA256 of the string-to-sign under that key. -/
theorem spec_C6 :
    ∀ (secret_access_key string_to_sign : String) (t : Timestamp),
      signingKey secret_access_key t =
        hmacSha256 (hmacSha256 (hmacSha256 (hmacSha256
          (utf8 ("AWS4" ++ secret_access_key)) (utf8 t.dateStamp)) (utf8 "us-east-1"))
          (utf8 "sts")) (utf8 "aws4_request") ∧
      awsSignatureOf secret_access_key t string_to_sign =
        toHex (hmacSha256 (signingKey secret_access_key t) (utf8 string_to_sign)) := by
  intro secret_access_key string_to_sign t
  exact ⟨rfl, rfl⟩

/-- C7: signing is deterministic — for fixed access key, secret, headers,
body and timestamp, two runs produce byte-identical request headers, in
particular a byte-identical `Authorization` header. -/
theorem spec_C7 :
    ∀ (access_key secret_access_key : String) (headers body : List (String × String))
      (t1 t2 : Timestamp), t1 = t2 →
      query_aws_headers access_key secret_access_key headers body t1 =
        query_aws_headers access_key secret_access_key headers body t2 ∧
      lookupDict "Authorization" (query_aws_headers access_key secret_access_key headers body t1) =
        lookupDict "Authorization"
          (query_aws_headers access_key secret_access_key headers body t2) := by
  intro access_key secret_access_key headers body t1 t2 ht
  subst ht
  exact ⟨rfl, rfl⟩

/-- Witness for C7 at concrete inputs. -/
theorem spec_C7_witness :
    query_aws_headers "AKIA0123456789ABCDEF" "topsecret"
        [("Host", "sts.amazonaws.com")] [("Action", "GetCallerIdentity")]
        ⟨"20251012", "120000"⟩ =
      query_aws_headers "AKIA0123456789ABCDEF" "topsecret"
        [("Host", "sts.amazonaws.com")] [("Action", "GetCallerIdentity")]
        ⟨"20251012", "120000"⟩ :=
  (spec_C7 "AKIA0123456789ABCDEF" "topsecret"
    [("Host", "sts.amazonaws.com")] [("Action", "GetCallerIdentity")]
    ⟨"20251012", "120000"⟩ ⟨"20251012", "120000"⟩ rfl).1

/-- C8: the `Authorization` header attached to the request has exactly
the form `AWS4-HMAC-SHA256 Credential=<access_key>/<scope>,
SignedHeaders=<signed_headers>, Signature=<signature>`, where the scope
is `<date>/us-east-1/sts/aws4_request` with the region fixed to
`us-east-1` for every request. -/
theorem spec_C8 :
    ∀ (access_key secret_access_key : String) (headers body : List (String × String))
      (t : Timestamp),
      lookupDict "Authorization" (query_aws_headers access_key secret_access_key headers body t) =
        some ("AWS4-HMAC-SHA256 Credential=" ++ access_key ++ "/" ++
          (t.dateStamp ++ "/us-east-1/sts/aws4_request") ++
          ", SignedHeaders=" ++ signedHeadersOf (dictSet "X-Amz-Date" (amazonDatetime t) headers) ++
          ", Signature=" ++ awsSignatureOf secret_access_key t
            (stringToSign (dictSet "X-Amz-Date" (amazonDatetime t) headers) body t)) := by
  intro access_key secret_access_key headers body t
  show lookupDict "Authorization"
      (dictSet "Authorization"
        (authorizationHeader access_key secret_access_key
          (dictSet "X-Amz-Date" (amazonDatetime t) headers) body t)
        (dictSet "X-Amz-Date" (amazonDatetime t) headers)) = _
  rw [lookupDict_dictSet]
  refine congrArg some (String.ext ?_)
  simp only [authorizationHeader, awsScope, region, String.data_append, List.append_assoc]
  rfl

end AwsDetector
